import Mathlib

/-!
Verification of the Shopify Functions Rust support library against its
specification.

The development shallowly embeds the code of the repository:

* the Decimal scalar codec (`shopify_function/src/scalars/decimal.rs`),
  including a faithful model of the strict JSON-number grammar used by
  `serde_json::from_str::<f64>` (acceptance only; the binary value of an
  accepted numeral is kept abstract, since no claim depends on it);
* the `Iter<T>` adapter (`shopify_function/src/lib.rs`);
* the code emitted by the procedural macros
  (`shopify_function_macro/src/lib.rs`): lazily-deserialized executable
  structs with memoized field accessors, executable (union/interface)
  enums with a catch-all `Other` variant, one-of input objects, input
  object serialization, and the `#[shopify_function(default)]` field
  policy of the `Deserialize` derive;
* the serde serialization shape of `Discount`
  (`shopify_function/src/discounts.rs`), whose `#[skip_serializing_none]`
  attribute omits absent optional fields.

The `shopify_function_wasm_api` crate (the host value store: `Value`,
`Context`, the primitive scalar codecs and `read::Error`) is not part of
the sources; it is modelled from the specification, sections 4.1-4.4 and 7,
and every such definition is marked accordingly in its doc comment.
-/

/-- Modelled from the spec: IEEE-754 binary64 values (`f64`), abstracted to
their classification. A finite value is carried as its (opaque) bit
pattern; no claim computes with finite values, only with the
finite/NaN/infinity classification. -/
inductive F64 where
  | finite (bits : Nat)
  | nan
  | inf
  | neginf
deriving DecidableEq, Repr

/-- Modelled from the spec: the tag set of a host-resident `Value`
(`Null | Bool | Number(f64) | String | Array | Object`). The host store
is represented by the value tree itself; a handle is identified with the
subtree it denotes. -/
inductive Json where
  | null
  | bool (b : Bool)
  | num (x : F64)
  | str (s : String)
  | arr (elems : List Json)
  | obj (fields : List (String × Json))

/-- Modelled from the spec: the read-side error taxonomy of section 7:
`InvalidType` (tag mismatch or malformed scalar string) and
`MissingOrInvalidField` (required field absent/null). -/
inductive ReadError where
  | invalidType
  | missingOrInvalidField
deriving DecidableEq, Repr

/-- Modelled from the spec: the write-side error taxonomy of section 7:
`ArityMismatch` (declared vs. actual write count diverge). -/
inductive WriteError where
  | arityMismatch
deriving DecidableEq, Repr

/-- Modelled from the spec: `is_null()` on a `Value`. -/
def Json.isNull : Json → Bool
  | .null => true
  | _ => false

/-- Modelled from the spec: `as_bool()` returns `None` if the tag
mismatches (no implicit coercion). -/
def Json.asBool : Json → Option Bool
  | .bool b => some b
  | _ => none

/-- Modelled from the spec: `as_number()` returns `None` if the tag
mismatches. -/
def Json.asNumber : Json → Option F64
  | .num x => some x
  | _ => none

/-- Modelled from the spec: `as_string()` returns `None` if the tag
mismatches. -/
def Json.asString : Json → Option String
  | .str s => some s
  | _ => none

/-- Modelled from the spec: `array_len()` is `Some` exactly on arrays. -/
def Json.arrayLen : Json → Option Nat
  | .arr xs => some xs.length
  | _ => none

/-- Modelled from the spec: `obj_len()` is `Some` exactly on objects. -/
def Json.objLen : Json → Option Nat
  | .obj fs => some fs.length
  | _ => none

/-- Modelled from the spec: `get_obj_key_at_index(i)` enumerates object
keys (used for one-of decoding and union discrimination). -/
def Json.getObjKeyAtIndex : Json → Nat → Option String
  | .obj fs, i => (fs.get? i).map Prod.fst
  | _, _ => none

/-- Modelled from the spec: `get_at_index(i)` returns the child value at
index `i` of an array, or the value of the `i`-th entry of an object. An
out-of-range index is a programming error in the source (it fails fast
and is never reached from schema-verified code); the model totalizes it
to `null`, and no theorem exercises that case. -/
def Json.getAtIndex : Json → Nat → Json
  | .arr xs, i => (xs.get? i).getD .null
  | .obj fs, i => ((fs.get? i).map Prod.snd).getD .null
  | _, _ => .null

/-- Modelled from the spec: `get_obj_prop(name)` returns a null-tagged
value (never an error) when the key is absent, so that a missing key and
an explicit null are indistinguishable downstream. -/
def Json.getObjProp : Json → String → Json
  | .obj fs, name => (fs.lookup name).getD .null
  | _, _ => .null

/-- Modelled from the spec: the primitive decode of a boolean is a direct
tag check; a null value (which is also what a missing field produces)
yields `MissingOrInvalidField`, any other tag mismatch `InvalidType`. -/
def decodeBool : Json → Except ReadError Bool
  | .bool b => .ok b
  | .null => .error .missingOrInvalidField
  | _ => .error .invalidType

/-- Modelled from the spec: the primitive decode of a string is a direct
tag check; a null value yields `MissingOrInvalidField`, any other tag
mismatch `InvalidType`. -/
def decodeString : Json → Except ReadError String
  | .str s => .ok s
  | .null => .error .missingOrInvalidField
  | _ => .error .invalidType

/-- Modelled from the spec: the primitive decode of an `f64` number. -/
def decodeF64 : Json → Except ReadError F64
  | .num x => .ok x
  | .null => .error .missingOrInvalidField
  | _ => .error .invalidType

/-- Modelled from the spec: decoding an `Option<T>` maps a null value to
`None` and otherwise defers to `T`'s decode. -/
def decodeOption (dec : Json → Except ReadError α) (v : Json) :
    Except ReadError (Option α) :=
  if v.isNull then .ok none else (dec v).map some

/-! ## The Decimal scalar codec (`shopify_function/src/scalars/decimal.rs`) -/

/-- The `Decimal` wrapper: `pub struct Decimal(pub f64)`. -/
structure Decimal where
  val : F64
deriving DecidableEq, Repr

/-- The `impl From<f64> for Decimal`: wraps any `f64` without
validation. -/
def decimalFromF64 (x : F64) : Decimal := ⟨x⟩

/-- The `impl From<Decimal> for f64`. -/
def decimalToF64 (d : Decimal) : F64 := d.val

/-- Models `ryu::Buffer::format` as used by `impl From<Decimal> for
String`: a non-finite value is formatted as the literal strings `"NaN"`,
`"inf"` and `"-inf"`; a finite value is formatted by ryu's
shortest-round-trip algorithm, which the model keeps abstract as a
parameter `fmtFinite` on the bit pattern (no claim depends on the digits
produced for finite values). -/
def ryuFormat (fmtFinite : Nat → String) : F64 → String
  | .finite bits => fmtFinite bits
  | .nan => "NaN"
  | .inf => "inf"
  | .neginf => "-inf"

/-- The `impl From<Decimal> for String`:
`ryu::Buffer::new().format(value.0).to_string()`. -/
def decimalToString (fmtFinite : Nat → String) (d : Decimal) : String :=
  ryuFormat fmtFinite d.val

/-- Character class of JSON whitespace as skipped by `serde_json`. -/
def isJsonWs (c : Char) : Bool :=
  c = ' ' || c = '\t' || c = '\n' || c = '\r'

/-- Character class of ASCII decimal digits. -/
def isDigitCh (c : Char) : Bool :=
  '0' ≤ c && c ≤ '9'

/-- Character class of nonzero ASCII decimal digits. -/
def isNonZeroDigit (c : Char) : Bool :=
  '1' ≤ c && c ≤ '9'

/-- Models the integer part of `serde_json`'s number parser: either a
single `0`, or a nonzero digit followed by any run of digits. Returns the
unconsumed remainder, or `none` on a malformed input. -/
def parseIntPart : List Char → Option (List Char)
  | [] => none
  | c :: rest =>
    if c = '0' then some rest
    else if isNonZeroDigit c then some (rest.dropWhile isDigitCh)
    else none

/-- Models the optional fraction part of `serde_json`'s number parser: a
`.` must be followed by at least one digit. -/
def parseFracPart (l : List Char) : Option (List Char) :=
  match l with
  | c :: rest =>
    if c = '.' then
      if rest.head?.any isDigitCh then some (rest.dropWhile isDigitCh) else none
    else some l
  | [] => some l

/-- Digit run of an exponent: at least one digit, greedily consumed. -/
def parseExpDigits (l : List Char) : Option (List Char) :=
  if l.head?.any isDigitCh then some (l.dropWhile isDigitCh) else none

/-- Models the optional exponent part of `serde_json`'s number parser:
`e` or `E`, an optional sign, and at least one digit. -/
def parseExpPart (l : List Char) : Option (List Char) :=
  match l with
  | c :: rest =>
    if c = 'e' || c = 'E' then
      if rest.head?.any (fun s => s = '+' || s = '-') then parseExpDigits rest.tail
      else parseExpDigits rest
    else some l
  | [] => some l

/-- Models `serde_json`'s complete number token parser: optional leading
`-`, integer part, optional fraction, optional exponent. Returns the
unconsumed remainder on success. -/
def parseNumberToken (l : List Char) : Option (List Char) :=
  let l1 := match l with
    | c :: rest => if c = '-' then rest else c :: rest
    | [] => []
  (parseIntPart l1).bind fun l2 => (parseFracPart l2).bind parseExpPart

/-- Models the acceptance behavior of `serde_json::from_str::<f64>`:
leading whitespace is skipped, one complete number token is parsed, and
the remainder must be whitespace only (`from_str` ends by requiring end
of input). -/
def serdeAcceptsF64 (s : String) : Bool :=
  match parseNumberToken (s.data.dropWhile isJsonWs) with
  | some rest => (rest.dropWhile isJsonWs).isEmpty
  | none => false

/-- Models `serde_json::from_str::<f64>` as used by `impl TryFrom<String>
for Decimal`: the decimal-to-binary conversion of an accepted numeral is
kept abstract as a parameter `conv` (a function of the input string),
since no claim depends on the numeric value produced. -/
def serdeJsonFromStrF64 (conv : String → F64) (s : String) : Option F64 :=
  if serdeAcceptsF64 s then some (conv s) else none

/-- The `impl TryFrom<String> for Decimal`:
`serde_json::from_str(value.as_str()).map(Self).map_err(|_| "Error parsing decimal: invalid float literal")`. -/
def decimalTryFromString (conv : String → F64) (s : String) :
    Except String Decimal :=
  match serdeJsonFromStrF64 conv s with
  | some x => .ok ⟨x⟩
  | none => .error "Error parsing decimal: invalid float literal"

/-- Modelled from the spec: the `wasm_api` `Deserialize` implementation
for `Decimal` is not under the sources (only the serde `TryFrom` path
is); per the spec the scalar is transmitted as a string, decode parses
with the strict numeric grammar and yields `ReadError::InvalidType` on
failure. -/
def decodeDecimalWasm (conv : String → F64) (v : Json) :
    Except ReadError Decimal :=
  match v with
  | .str s =>
    match serdeJsonFromStrF64 conv s with
    | some x => .ok ⟨x⟩
    | none => .error .invalidType
  | .null => .error .missingOrInvalidField
  | _ => .error .invalidType

/-! ## Declarative JSON-number grammar

The spec calls for a strict numeric grammar: a complete, well-formed
decimal numeral is `-? (0 | [1-9][0-9]*) (. [0-9]+)? ([eE] [+-]? [0-9]+)?`.
The following predicates state that grammar declaratively (as a
decomposition of the character list), independently of the parser above;
the two are related by soundness/completeness lemmas. -/

/-- Declarative sign part: empty or a single `-`. -/
def SignPartOk (l : List Char) : Prop :=
  l = [] ∨ l = ['-']

/-- Declarative integer part: `0 | [1-9][0-9]*`. -/
def IntPartOk (l : List Char) : Prop :=
  l = ['0'] ∨ ∃ c cs, l = c :: cs ∧ isNonZeroDigit c = true ∧ cs.all isDigitCh = true

/-- Declarative fraction part: empty or `. [0-9]+`. -/
def FracPartOk (l : List Char) : Prop :=
  l = [] ∨ ∃ ds, l = '.' :: ds ∧ ds ≠ [] ∧ ds.all isDigitCh = true

/-- Declarative exponent part: empty or `[eE] [+-]? [0-9]+`. -/
def ExpPartOk (l : List Char) : Prop :=
  l = [] ∨ ∃ e sg ds, (e = 'e' ∨ e = 'E') ∧ (sg = [] ∨ sg = ['+'] ∨ sg = ['-']) ∧
    ds ≠ [] ∧ ds.all isDigitCh = true ∧ l = e :: (sg ++ ds)

/-- Declarative JSON number: concatenation of the four parts. -/
def IsJsonNumber (l : List Char) : Prop :=
  ∃ sgn ip fp ep, SignPartOk sgn ∧ IntPartOk ip ∧ FracPartOk fp ∧ ExpPartOk ep ∧
    l = sgn ++ ip ++ fp ++ ep

/-- Declarative acceptance of a whole string by the decimal decode path:
whitespace, one complete well-formed decimal numeral, whitespace. -/
def AcceptsDecimalString (s : String) : Prop :=
  ∃ ws1 num ws2, ws1.all isJsonWs = true ∧ ws2.all isJsonWs = true ∧
    IsJsonNumber num ∧ s.data = ws1 ++ num ++ ws2

/-! ## Generated executable structs (`additional_impls_for_executable_struct`)

The macro emits, for each selected struct shape, a struct holding the raw
`Value` handle plus one `OnceCell` per field, a `Deserialize`
implementation that only captures the handle, and one lazy, memoized
accessor per field. The model is generic over the element type stored in
the cells; host interaction is instrumented by an explicit `Trace`. -/

/-- Instrumentation of host interaction: number of intern calls, child
property lookups, and child decodes performed by an operation. -/
structure Trace where
  interns : Nat
  lookups : Nat
  decodes : Nat
deriving DecidableEq, Repr

/-- State of a generated executable struct: the raw value handle
(`__wasm_value: shopify_function::wasm_api::Value`) and one cell per
field (`::std::cell::OnceCell`), `none` meaning uninitialized. -/
structure ExecStruct (α : Type) where
  wasmValue : Json
  cells : List (Option α)

/-- The generated `Deserialize` implementation for an executable struct
with `n` fields: `Ok(Self { __wasm_value: *value, f: OnceCell::new(), .. })`.
It performs no host interaction at all, recorded by the zero trace. -/
def deserializeExecStruct (α : Type) (n : Nat) (v : Json) :
    (Except ReadError (ExecStruct α)) × Trace :=
  (.ok ⟨v, List.replicate n none⟩, ⟨0, 0, 0⟩)

/-- State of one generated field accessor: the raw value handle, the
field's `OnceCell` (`none` = uninitialized), and whether the `static
CachedInternedStringId` for the field's literal name has been resolved
against the store yet. Since the cache cell binds the literal name to a
host token, the token is identified with the name itself; `internedYet`
records whether resolving it still requires a host intern call. -/
structure FieldAccessorState (α : Type) where
  root : Json
  cell : Option α
  internedYet : Bool

/-- Modelled from the spec: `CachedInternedStringId::load_from_value`
interns the literal on first use (one host call) and afterwards returns
the cached token without any host call. Returns the token, the updated
cache state, and the number of intern calls performed. -/
def loadFromValue (name : String) (internedYet : Bool) :
    String × Bool × Nat :=
  if internedYet then (name, true, 0) else (name, true, 1)

/-- Result of one generated accessor call: the field value, or a panic
(the generated code unwraps the field decode, so a failed decode aborts
rather than returning an error). -/
inductive AccessResult (α : Type) where
  | value (a : α)
  | panicked
deriving DecidableEq, Repr

/-- One call of a generated field accessor, as emitted by
`additional_impls_for_executable_struct`: resolve the interned token for
the field's literal name, then `get_or_init` the `OnceCell` — on a miss
fetch the child with `get_interned_obj_prop` (one lookup) and decode it
(one decode), unwrapping the result; on a hit return the memoized value
with no lookup and no decode. -/
def fieldAccessor (dec : Json → Except ReadError α) (name : String)
    (s : FieldAccessorState α) :
    AccessResult α × FieldAccessorState α × Trace :=
  let (tok, interned, nInterns) := loadFromValue name s.internedYet
  match s.cell with
  | some v => (.value v, ⟨s.root, some v, interned⟩, ⟨nInterns, 0, 0⟩)
  | none =>
    let child := s.root.getObjProp tok
    match dec child with
    | .ok v => (.value v, ⟨s.root, some v, interned⟩, ⟨nInterns, 1, 1⟩)
    | .error _ => (.panicked, ⟨s.root, none, interned⟩, ⟨nInterns, 1, 1⟩)

/-! ## Generated executable enums (`additional_impls_for_executable_enum`)

Union/interface types decode by reading the `__typename` discriminator
and dispatching to the matching variant's decode; an unrecognized
discriminator yields the catch-all `Other` variant. The model is generic:
`variants` associates each declared variant name with its decode
(including the wrapping into the enum constructor), and `other` is the
catch-all value. -/

/-- The generated `Deserialize` implementation for an executable enum. -/
def decodeExecEnum (variants : List (String × (Json → Except ReadError α)))
    (other : α) (v : Json) : Except ReadError α :=
  let typename := v.getObjProp "__typename"
  match decodeString typename with
  | .error e => .error e
  | .ok s =>
    match variants.lookup s with
    | some dec => dec v
    | none => .ok other

/-! ## Generated one-of input objects (`additional_impls_for_one_of_input_object`) -/

/-- The generated `Deserialize` implementation for a one-of input object:
require an object of length exactly 1, read the sole key, and dispatch on
it; every other shape is `ReadError::InvalidType`. -/
def decodeOneOf (fields : List (String × (Json → Except ReadError α)))
    (v : Json) : Except ReadError α :=
  match v.objLen with
  | none => .error .invalidType
  | some objLen =>
    if objLen ≠ 1 then .error .invalidType
    else
      match v.getObjKeyAtIndex 0 with
      | none => .error .invalidType
      | some fieldName =>
        let fieldValue := v.getAtIndex 0
        match fields.lookup fieldName with
        | some dec => dec fieldValue
        | none => .error .invalidType

/-! ## The `#[shopify_function(default)]` field policy
(`derive_deserialize_for_derive_input`)

The derive emits, per field, either
`deserialize(&value.get_obj_prop(name))?` (no default) or
`{ let prop = value.get_obj_prop(name); if prop.is_null() { Default::default() } else { deserialize(&prop)? } }`
(with default). -/

/-- Decode of a single derived struct field. `hasDefault` selects the
`#[shopify_function(default)]` code path; `dflt` is the field type's
`Default` value. -/
def decodeDerivedField (hasDefault : Bool) (dec : Json → Except ReadError α)
    (dflt : α) (v : Json) (name : String) : Except ReadError α :=
  if hasDefault then
    let prop := v.getObjProp name
    if prop.isNull then .ok dflt else dec prop
  else
    dec (v.getObjProp name)

/-! ## Generated input object serialization (`additional_impls_for_input_object`)

The generated `Serialize` implementation calls `write_object` with a
closure that writes, for every declared field in order, the field name
and then the field value, declaring `num_fields` pairs. The model
abstracts each field value's own serialization to the `Json` it
produces. -/

/-- Modelled from the spec: `Context::write_object(closure, expected)` —
the closure must perform exactly `expected` key/value pair writes;
a mismatch is `WriteError::ArityMismatch`. -/
def writeObject (pairs : List (String × Json)) (expected : Nat) :
    Except WriteError Json :=
  if pairs.length = expected then .ok (.obj pairs) else .error .arityMismatch

/-- The generated input-object `Serialize` implementation: one
name/value pair per declared field, with `num_fields` equal to the
number of declared fields. -/
def serializeInputObject (fields : List (String × Json)) :
    Except WriteError Json :=
  writeObject fields fields.length

/-! ## The library iterator `Iter<T>` (`shopify_function/src/lib.rs`) -/

/-- The `Iter<T>` struct: the raw array `Value`, the current index and
the captured length. The element type is a phantom parameter, as in the
source (`_marker: PhantomData<T>`). -/
structure Iter (α : Type) where
  value : Json
  index : Nat
  len : Nat

/-- The `impl Deserialize for Iter<T>`: succeeds exactly on arrays,
capturing the handle and the length; any other tag is
`Err(Error::InvalidType)`. -/
def iterDeserialize (α : Type) (v : Json) : Except ReadError (Iter α) :=
  match v.arrayLen with
  | some len => .ok ⟨v, 0, len⟩
  | none => .error .invalidType

/-- Result of one `Iter::next` call: exhausted, an item, or a panic (the
source unwraps the element decode, so a failing element aborts instead of
surfacing a `Result`). -/
inductive IterNextResult (α : Type) where
  | done
  | item (a : α)
  | panicked (e : ReadError)
deriving DecidableEq, Repr

/-- The `impl Iterator for Iter<T>`'s `next`: return `None` once `index`
reaches `len`; otherwise fetch the child at `index`, advance, and unwrap
the element decode. -/
def iterNext (dec : Json → Except ReadError α) (it : Iter α) :
    IterNextResult α × Iter α :=
  if it.len ≤ it.index then (.done, it)
  else
    let v := it.value.getAtIndex it.index
    let it' : Iter α := ⟨it.value, it.index + 1, it.len⟩
    match dec v with
    | .ok a => (.item a, it')
    | .error e => (.panicked e, it')

/-- State of an `Iter` after `k` consecutive `next` calls. -/
def iterNextN (dec : Json → Except ReadError α) (it : Iter α) : Nat → Iter α
  | 0 => it
  | k + 1 => (iterNext dec (iterNextN dec it k)).2

/-! ## The `Discount` output type (`shopify_function/src/discounts.rs`)

`Discount` is serialized by serde; the struct carries
`#[skip_serializing_none]`, so its two `Option` fields are omitted
entirely when `None` while the two required fields are always written.
The serialization of the three payload types (`Value`, `Target`,
`Condition`) is abstracted to the `Json` each element produces, since the
claims concern only which field-name/value pairs the struct emits. -/

/-- The `Discount` struct, generic over the payload types of its
`value`, `targets` and `conditions` fields. -/
structure Discount (V T C : Type) where
  value : V
  targets : List T
  message : Option String
  conditions : Option (List C)

/-- Serde serialization of `Discount` under `#[skip_serializing_none]`:
every declared field is written as a name/value pair in declaration
order, except that an `Option` field whose value is `None` is skipped
(no key and no value). -/
def serializeDiscount (sv : V → Json) (st : T → Json) (sc : C → Json)
    (d : Discount V T C) : List (String × Json) :=
  [("value", sv d.value), ("targets", .arr (d.targets.map st))]
    ++ (match d.message with
        | none => []
        | some m => [("message", .str m)])
    ++ (match d.conditions with
        | none => []
        | some cs => [("conditions", .arr (cs.map sc))])

/-! ## Claims about the generated code -/

/-- C4. For every input Value `v` and every generated struct type,
`deserialize(&v)` always succeeds, stores only the raw Value handle plus
one uninitialized cell per field, and performs zero field-level decode
work (the trace records no intern, no lookup, and no decode). -/
theorem claim4_struct_deserialize_is_lazy (α : Type) (n : Nat) (v : Json) :
    deserializeExecStruct α n v =
      (.ok ⟨v, List.replicate n none⟩, ⟨0, 0, 0⟩) ∧
    (∀ st : ExecStruct α, (deserializeExecStruct α n v).1 = .ok st →
      st.wasmValue = v ∧ st.cells.length = n ∧ ∀ c ∈ st.cells, c = none) := by
  refine ⟨rfl, fun st hst => ?_⟩
  have : st = ⟨v, List.replicate n none⟩ := by
    simpa [deserializeExecStruct] using hst.symm
  subst this
  exact ⟨rfl, List.length_replicate _ _, fun c hc => List.eq_of_mem_replicate hc⟩

/-- C4 witness. -/
theorem claim4_struct_deserialize_is_lazy_witness :
    deserializeExecStruct Bool 2 (Json.obj [("a", Json.null)]) =
      (.ok ⟨Json.obj [("a", Json.null)], [none, none]⟩, ⟨0, 0, 0⟩) := by
  have h := (claim4_struct_deserialize_is_lazy Bool 2 (Json.obj [("a", Json.null)])).1
  simpa using h

/-- C2. For a struct field handled by the derived `Deserialize`: when the
field is missing from the object or explicitly null, the interposed
`get_obj_prop` produces a null value; a `#[shopify_function(default)]`
field then decodes to the type's `Default` value, while a non-defaultable
required field (one whose type's decode rejects null, as every required
primitive does) produces a decode error. -/
theorem claim2_default_null_missing_unified (α : Type)
    (fs : List (String × Json)) (name : String)
    (dec : Json → Except ReadError α) (dflt : α) (e : ReadError)
    (hmiss : fs.lookup name = none ∨ fs.lookup name = some Json.null)
    (hreq : dec Json.null = .error e) :
    (Json.obj fs).getObjProp name = Json.null ∧
    decodeDerivedField true dec dflt (Json.obj fs) name = .ok dflt ∧
    decodeDerivedField false dec dflt (Json.obj fs) name = .error e := by
  have hprop : (Json.obj fs).getObjProp name = Json.null := by
    rcases hmiss with h | h <;> simp [Json.getObjProp, h]
  refine ⟨hprop, ?_, ?_⟩
  · simp [decodeDerivedField, hprop, Json.isNull]
  · simp [decodeDerivedField, hprop, hreq]

/-- C2 witness: a missing field and an explicitly null field, for a
defaultable `String` field and for a required `bool` field. -/
theorem claim2_default_null_missing_unified_witness :
    (decodeDerivedField true decodeString "" (Json.obj [("fieldC", Json.bool true)])
        "fieldA" = .ok "" ∧
      decodeDerivedField false decodeBool false (Json.obj [("fieldC", Json.bool true)])
        "fieldA" = .error .missingOrInvalidField) ∧
    (decodeDerivedField true decodeString "" (Json.obj [("fieldA", Json.null)])
        "fieldA" = .ok "" ∧
      decodeDerivedField false decodeBool false (Json.obj [("fieldA", Json.null)])
        "fieldA" = .error .missingOrInvalidField) := by
  constructor
  · exact ⟨(claim2_default_null_missing_unified String [("fieldC", Json.bool true)]
        "fieldA" decodeString "" .missingOrInvalidField (Or.inl rfl) rfl).2.1,
      (claim2_default_null_missing_unified Bool [("fieldC", Json.bool true)]
        "fieldA" decodeBool false .missingOrInvalidField (Or.inl rfl) rfl).2.2⟩
  · exact ⟨(claim2_default_null_missing_unified String [("fieldA", Json.null)]
        "fieldA" decodeString "" .missingOrInvalidField (Or.inr rfl) rfl).2.1,
      (claim2_default_null_missing_unified Bool [("fieldA", Json.null)]
        "fieldA" decodeBool false .missingOrInvalidField (Or.inr rfl) rfl).2.2⟩

/-- C3. Encoding a struct writes one field-name/value pair per declared
field: the generated input-object serializer emits exactly the declared
pairs (and its declared arity always matches, so it never fails); the
serde-serialized `Discount`, whose optional fields are marked omit-when-
absent by `#[skip_serializing_none]`, writes its two required fields
always and skips `message`/`conditions` exactly when they are `None`. -/
theorem claim3_encode_one_pair_per_field (V T C : Type)
    (sv : V → Json) (st : T → Json) (sc : C → Json)
    (d : Discount V T C) (fields : List (String × Json)) :
    serializeInputObject fields = .ok (.obj fields) ∧
    (serializeDiscount sv st sc d).map Prod.fst =
      ["value", "targets"]
        ++ (if d.message.isSome then ["message"] else [])
        ++ (if d.conditions.isSome then ["conditions"] else []) := by
  constructor
  · simp [serializeInputObject, writeObject]
  · rcases d with ⟨v, ts, msg, conds⟩
    cases msg <;> cases conds <;> simp [serializeDiscount]

/-- C5. Calling a generated field accessor twice performs exactly one
underlying property lookup and one decode: the first call on a fresh cell
fetches and decodes the child (one lookup, one decode), and the second
call returns the memoized result, equal to the first, with zero lookups
and zero decodes. -/
theorem claim5_accessor_memoized (α : Type)
    (dec : Json → Except ReadError α) (name : String) (root : Json)
    (init : Bool) (v0 : α)
    (hdec : dec (root.getObjProp name) = .ok v0) :
    fieldAccessor dec name ⟨root, none, init⟩ =
      (.value v0, ⟨root, some v0, true⟩, ⟨if init then 0 else 1, 1, 1⟩) ∧
    fieldAccessor dec name ⟨root, some v0, true⟩ =
      (.value v0, ⟨root, some v0, true⟩, ⟨0, 0, 0⟩) := by
  cases init <;> simp [fieldAccessor, loadFromValue, hdec]

/-- C5 witness: a concrete object, its boolean field accessed twice. -/
theorem claim5_accessor_memoized_witness :
    fieldAccessor decodeBool "f" ⟨Json.obj [("f", Json.bool true)], none, false⟩ =
      (.value true, ⟨Json.obj [("f", Json.bool true)], some true, true⟩, ⟨1, 1, 1⟩) ∧
    fieldAccessor decodeBool "f" ⟨Json.obj [("f", Json.bool true)], some true, true⟩ =
      (.value true, ⟨Json.obj [("f", Json.bool true)], some true, true⟩, ⟨0, 0, 0⟩) := by
  have h := claim5_accessor_memoized Bool decodeBool "f"
    (Json.obj [("f", Json.bool true)]) false true rfl
  simpa using h

/-- C6. For a generated tagged-union type, decoding an object whose
`__typename` discriminator string matches no declared variant succeeds
with the catch-all `Other` value (never an error), while a discriminator
matching a declared variant dispatches to that variant's decode. -/
theorem claim6_union_other_fallback (α : Type)
    (variants : List (String × (Json → Except ReadError α))) (other : α)
    (fs : List (String × Json)) (s : String)
    (htn : fs.lookup "__typename" = some (Json.str s)) :
    (variants.lookup s = none →
      decodeExecEnum variants other (.obj fs) = .ok other) ∧
    (∀ dec, variants.lookup s = some dec →
      decodeExecEnum variants other (.obj fs) = dec (.obj fs)) := by
  have hprop : (Json.obj fs).getObjProp "__typename" = Json.str s := by
    simp [Json.getObjProp, htn]
  constructor
  · intro hnone
    simp [decodeExecEnum, hprop, decodeString, hnone]
  · intro dec hdec
    simp [decodeExecEnum, hprop, decodeString, hdec]

/-- C6 witness: one declared variant `"A"`; an unknown discriminator
`"B"` falls back to `Other`, the known one dispatches. -/
theorem claim6_union_other_fallback_witness :
    decodeExecEnum [("A", fun _ => .ok true)] false
      (Json.obj [("__typename", Json.str "B")]) = .ok false ∧
    decodeExecEnum [("A", fun _ => .ok true)] false
      (Json.obj [("__typename", Json.str "A")]) = .ok true := by
  constructor
  · exact (claim6_union_other_fallback Bool [("A", fun _ => .ok true)] false
      [("__typename", Json.str "B")] "B" rfl).1 rfl
  · exact (claim6_union_other_fallback Bool [("A", fun _ => .ok true)] false
      [("__typename", Json.str "A")] "A" rfl).2 (fun _ => .ok true) rfl

/-- C7. A generated one-of input object decodes successfully exactly when
the value is an object, its length is exactly 1, and its sole key names a
declared field whose value decodes; a non-object, an object of any other
length, and an unknown sole key each yield `ReadError::InvalidType`, and
a matching sole key dispatches to the declared field's decode. -/
theorem claim7_one_of_shape (α : Type)
    (fields : List (String × (Json → Except ReadError α))) :
    (∀ v : Json, v.objLen = none →
      decodeOneOf fields v = .error .invalidType) ∧
    (∀ fs : List (String × Json), fs.length ≠ 1 →
      decodeOneOf fields (.obj fs) = .error .invalidType) ∧
    (∀ (k : String) (val : Json), fields.lookup k = none →
      decodeOneOf fields (.obj [(k, val)]) = .error .invalidType) ∧
    (∀ (k : String) (val : Json) dec, fields.lookup k = some dec →
      decodeOneOf fields (.obj [(k, val)]) = dec val) ∧
    (∀ v : Json, (decodeOneOf fields v).isOk = true ↔
      ∃ k val dec, v = .obj [(k, val)] ∧ fields.lookup k = some dec ∧
        (dec val).isOk = true) := by
  have hobj : ∀ (k : String) (val : Json),
      decodeOneOf fields (.obj [(k, val)]) =
        match fields.lookup k with
        | some dec => dec val
        | none => .error .invalidType := by
    intro k val
    cases hk : fields.lookup k <;>
      simp [decodeOneOf, Json.objLen, Json.getObjKeyAtIndex, Json.getAtIndex, hk]
  refine ⟨?_, ?_, ?_, ?_, ?_⟩
  · intro v hv
    simp [decodeOneOf, hv]
  · intro fs hfs
    simp [decodeOneOf, Json.objLen, hfs]
  · intro k val hk
    simp [hobj, hk]
  · intro k val dec hk
    simp [hobj, hk]
  · intro v
    constructor
    · intro hOk
      match v with
      | .null | .bool _ | .num _ | .str _ | .arr _ =>
        simp [decodeOneOf, Json.objLen, Except.isOk, Except.toBool] at hOk
      | .obj [] =>
        simp [decodeOneOf, Json.objLen, Except.isOk, Except.toBool] at hOk
      | .obj [(k, val)] =>
        rw [hobj k val] at hOk
        cases hk : fields.lookup k with
        | none => rw [hk] at hOk; simp [Except.isOk, Except.toBool] at hOk
        | some dec =>
          rw [hk] at hOk
          exact ⟨k, val, dec, rfl, hk, hOk⟩
      | .obj ((k₁, v₁) :: (k₂, v₂) :: t) =>
        simp [decodeOneOf, Json.objLen, Except.isOk, Except.toBool] at hOk
    · rintro ⟨k, val, dec, rfl, hk, hOk⟩
      rw [hobj k val, hk]
      exact hOk

/-- C7 witness: a one-of with a single declared field `"a"`, applied to a
non-object, an empty object, an unknown sole key, and the matching
key. -/
theorem claim7_one_of_shape_witness :
    decodeOneOf [("a", decodeBool)] Json.null = .error .invalidType ∧
    decodeOneOf [("a", decodeBool)] (Json.obj []) = .error .invalidType ∧
    decodeOneOf [("a", decodeBool)] (Json.obj [("b", Json.bool true)]) =
      .error .invalidType ∧
    decodeOneOf [("a", decodeBool)] (Json.obj [("a", Json.bool true)]) =
      .ok true := by
  refine ⟨(claim7_one_of_shape Bool [("a", decodeBool)]).1 Json.null rfl,
    (claim7_one_of_shape Bool [("a", decodeBool)]).2.1 [] (by decide),
    (claim7_one_of_shape Bool [("a", decodeBool)]).2.2.1 "b" (Json.bool true) rfl,
    ?_⟩
  have h := (claim7_one_of_shape Bool [("a", decodeBool)]).2.2.2.1 "a"
    (Json.bool true) decodeBool rfl
  simpa using h

/-- Auxiliary invariant for `Iter`: `next` never changes the captured
value or length, and advances the index by one until it reaches the
length, after which the iterator state is frozen. -/
theorem iterNextN_state (α : Type) (dec : Json → Except ReadError α)
    (v : Json) (n : Nat) (k : Nat) :
    iterNextN dec (⟨v, 0, n⟩ : Iter α) k = ⟨v, min k n, n⟩ := by
  induction k with
  | zero => simp [iterNextN]
  | succ k ih =>
    rw [iterNextN, ih]
    by_cases h : n ≤ min k n
    · have hmin : min k n = n := by omega
      simp [iterNext, h, hmin]
      omega
    · have hlt : min k n < n := by omega
      have hk : min k n = k := by omega
      simp only [iterNext, if_neg (by omega : ¬ n ≤ min k n)]
      cases dec (Json.getAtIndex v (min k n)) <;> simp <;> omega

/-- C9. `Iter<T>`: deserializing a non-array value is
`Err(Error::InvalidType)`; deserializing an array of length `n` succeeds
capturing index 0 and length `n`, and every `next` call after the first
`n` returns `None`; and an array containing an element on which the
element decode fails makes `next` panic (the element error is unwrapped,
not returned to the caller). -/
theorem claim9_iter_behavior :
    (∀ (α : Type) (v : Json), v.arrayLen = none →
      iterDeserialize α v = .error .invalidType) ∧
    (∀ (α : Type) (dec : Json → Except ReadError α) (xs : List Json) (k : Nat),
      iterDeserialize α (.arr xs) = .ok ⟨.arr xs, 0, xs.length⟩ ∧
      (xs.length ≤ k →
        (iterNext dec (iterNextN dec ⟨.arr xs, 0, xs.length⟩ k)).1 = .done)) ∧
    (iterDeserialize Bool (.arr [Json.null]) = .ok ⟨.arr [Json.null], 0, 1⟩ ∧
      (iterNext decodeBool (⟨.arr [Json.null], 0, 1⟩ : Iter Bool)).1 =
        .panicked .missingOrInvalidField) := by
  refine ⟨?_, ?_, ?_, ?_⟩
  · intro α v hv
    simp [iterDeserialize, hv]
  · intro α dec xs k
    refine ⟨by simp [iterDeserialize, Json.arrayLen], fun hk => ?_⟩
    rw [iterNextN_state]
    have hmin : min k xs.length = xs.length := by omega
    simp [iterNext, hmin]
  · simp [iterDeserialize, Json.arrayLen]
  · simp [iterNext, Json.getAtIndex, decodeBool]

/-- C9 witness: the non-array case, the exhaustion case after `n` calls
on a two-element array, and the concrete panic case. -/
theorem claim9_iter_behavior_witness :
    iterDeserialize Bool Json.null = .error .invalidType ∧
    (iterNext decodeBool
      (iterNextN decodeBool (⟨.arr [Json.bool true, Json.bool false], 0, 2⟩ : Iter Bool) 2)).1 =
      .done := by
  refine ⟨claim9_iter_behavior.1 Bool Json.null rfl, ?_⟩
  exact (claim9_iter_behavior.2.1 Bool decodeBool [Json.bool true, Json.bool false] 2).2
    (by decide)

/-! ## Claims about the Decimal codec -/

/-- C10. `From<f64> for Decimal` wraps every value without validation,
including NaN and the infinities; encoding such a non-finite Decimal to a
string succeeds (producing `"NaN"`, `"inf"` or `"-inf"`), but decoding
that string back fails, so the encode/decode round trip can only hold on
finite values. -/
theorem claim10_nonfinite_no_roundtrip (fmtFinite : Nat → String)
    (conv : String → F64) (x : F64) :
    decimalFromF64 x = ⟨x⟩ ∧
    ((x = .nan ∨ x = .inf ∨ x = .neginf) →
      decimalTryFromString conv (decimalToString fmtFinite (decimalFromF64 x)) =
        .error "Error parsing decimal: invalid float literal") ∧
    ((decimalTryFromString conv
        (decimalToString fmtFinite (decimalFromF64 x))).isOk = true →
      ∃ bits, x = .finite bits) := by
  have hnan : decimalTryFromString conv "NaN" =
      .error "Error parsing decimal: invalid float literal" := by
    have : serdeAcceptsF64 "NaN" = false := by decide
    simp [decimalTryFromString, serdeJsonFromStrF64, this]
  have hinf : decimalTryFromString conv "inf" =
      .error "Error parsing decimal: invalid float literal" := by
    have : serdeAcceptsF64 "inf" = false := by decide
    simp [decimalTryFromString, serdeJsonFromStrF64, this]
  have hninf : decimalTryFromString conv "-inf" =
      .error "Error parsing decimal: invalid float literal" := by
    have : serdeAcceptsF64 "-inf" = false := by decide
    simp [decimalTryFromString, serdeJsonFromStrF64, this]
  refine ⟨rfl, ?_, ?_⟩
  · rintro (rfl | rfl | rfl)
    · simpa [decimalToString, decimalFromF64, ryuFormat] using hnan
    · simpa [decimalToString, decimalFromF64, ryuFormat] using hinf
    · simpa [decimalToString, decimalFromF64, ryuFormat] using hninf
  · intro hOk
    match x with
    | .finite bits => exact ⟨bits, rfl⟩
    | .nan =>
      rw [show decimalToString fmtFinite (decimalFromF64 .nan) = "NaN" from rfl,
        hnan] at hOk
      simp [Except.isOk, Except.toBool] at hOk
    | .inf =>
      rw [show decimalToString fmtFinite (decimalFromF64 .inf) = "inf" from rfl,
        hinf] at hOk
      simp [Except.isOk, Except.toBool] at hOk
    | .neginf =>
      rw [show decimalToString fmtFinite (decimalFromF64 .neginf) = "-inf" from rfl,
        hninf] at hOk
      simp [Except.isOk, Except.toBool] at hOk

/-- C10 witness: the NaN case concretely, plus a finite value showing the
last hypothesis satisfiable. -/
theorem claim10_nonfinite_no_roundtrip_witness :
    decimalTryFromString (fun _ => F64.finite 0)
      (decimalToString (fun _ => "1") (decimalFromF64 .nan)) =
      .error "Error parsing decimal: invalid float literal" ∧
    (∃ bits, F64.finite 7 = F64.finite bits) := by
  constructor
  · exact (claim10_nonfinite_no_roundtrip (fun _ => "1") (fun _ => F64.finite 0)
      .nan).2.1 (Or.inl rfl)
  · exact (claim10_nonfinite_no_roundtrip (fun _ => "1") (fun _ => F64.finite 0)
      (F64.finite 7)).2.2 (by decide)

/-! ## The strict numeric grammar of the Decimal decode (C8)

The parser functions above are related to the declarative grammar by a
soundness and a completeness lemma, so that the rejection claim can be
stated against the grammar rather than against the parser itself. -/

/-- JSON whitespace is one of the four concrete characters. -/
theorem wsChar_cases {c : Char} (h : isJsonWs c = true) :
    c = ' ' ∨ c = '\t' ∨ c = '\n' ∨ c = '\r' := by
  have h' := h
  simp only [isJsonWs, Bool.or_eq_true, decide_eq_true_eq] at h'
  tauto

/-- A whitespace character is not a digit. -/
theorem ws_not_digit {c : Char} (h : isJsonWs c = true) : isDigitCh c = false := by
  rcases wsChar_cases h with rfl | rfl | rfl | rfl <;> decide

/-- A whitespace character is not a decimal point. -/
theorem ws_ne_dot {c : Char} (h : isJsonWs c = true) : c ≠ '.' := by
  rcases wsChar_cases h with rfl | rfl | rfl | rfl <;> decide

/-- A whitespace character is not an exponent marker. -/
theorem ws_ne_exp {c : Char} (h : isJsonWs c = true) : c ≠ 'e' ∧ c ≠ 'E' := by
  rcases wsChar_cases h with rfl | rfl | rfl | rfl <;> decide

/-- A digit is not whitespace. -/
theorem digit_not_ws {c : Char} (h : isDigitCh c = true) : isJsonWs c = false := by
  cases hw : isJsonWs c
  · rfl
  · rw [ws_not_digit hw] at h; cases h

/-- A nonzero digit is a digit. -/
theorem nonzero_isDigitCh {c : Char} (h : isNonZeroDigit c = true) :
    isDigitCh c = true := by
  simp only [isNonZeroDigit, Bool.and_eq_true, decide_eq_true_eq] at h
  simp only [isDigitCh, Bool.and_eq_true, decide_eq_true_eq]
  exact ⟨le_trans (by decide) h.1, h.2⟩

/-- A digit is neither `+` nor `-`. -/
theorem digit_not_sign {c : Char} (h : isDigitCh c = true) :
    (c = '+' || c = '-') = false := by
  by_cases h1 : c = '+'
  · subst h1; cases h
  · by_cases h2 : c = '-'
    · subst h2; cases h
    · simp [h1, h2]

/-- A digit is not a decimal point. -/
theorem digit_ne_dot {c : Char} (h : isDigitCh c = true) : c ≠ '.' := by
  intro hc; subst hc; cases h

/-- A digit is not an exponent marker. -/
theorem digit_ne_exp {c : Char} (h : isDigitCh c = true) : c ≠ 'e' ∧ c ≠ 'E' := by
  constructor <;> intro hc <;> subst hc <;> cases h

/-- A digit is not a minus sign. -/
theorem digit_ne_dash {c : Char} (h : isDigitCh c = true) : c ≠ '-' := by
  intro hc; subst hc; cases h

/-- The head of a list is a member of it. -/
theorem headQ_mem {t : List α} {x : α} (h : t.head? = some x) : x ∈ t := by
  cases t with
  | nil => cases h
  | cons a t' =>
    simp only [List.head?_cons, Option.some.injEq] at h
    subst h; exact List.mem_cons_self _ _

/-- Dropping a satisfying prefix followed by a non-satisfying head leaves
exactly the suffix. -/
theorem dropWhile_append_not_head (p : α → Bool) (a t : List α)
    (ha : a.all p = true) (ht : ∀ x, t.head? = some x → p x = false) :
    (a ++ t).dropWhile p = t := by
  induction a with
  | nil =>
    cases t with
    | nil => rfl
    | cons x xs => simp [List.dropWhile_cons, ht x rfl]
  | cons x xs ih =>
    simp only [List.all_cons, Bool.and_eq_true] at ha
    simp [List.dropWhile_cons, ha.1, ih ha.2]

/-- Soundness of the integer-part parser: whatever it consumes is a
well-formed integer part. -/
theorem parseIntPart_sound {l r : List Char} (h : parseIntPart l = some r) :
    ∃ ip, IntPartOk ip ∧ l = ip ++ r := by
  match l with
  | [] => simp [parseIntPart] at h
  | c :: rest =>
    simp only [parseIntPart] at h
    by_cases hc : c = '0'
    · rw [if_pos hc] at h
      subst hc
      refine ⟨['0'], Or.inl rfl, ?_⟩
      simpa using (Option.some.inj h).symm ▸ rfl
    · rw [if_neg hc] at h
      by_cases hz : isNonZeroDigit c = true
      · rw [if_pos hz] at h
        have hr := (Option.some.inj h).symm
        refine ⟨c :: rest.takeWhile isDigitCh,
          Or.inr ⟨c, rest.takeWhile isDigitCh, rfl, hz, ?_⟩, ?_⟩
        · exact List.all_eq_true.mpr fun x hx => List.mem_takeWhile_imp hx
        · rw [hr]
          simp [List.takeWhile_append_dropWhile]
      · rw [if_neg hz] at h
        cases h

/-- Soundness of the fraction-part parser. -/
theorem parseFracPart_sound {l r : List Char} (h : parseFracPart l = some r) :
    ∃ fp, FracPartOk fp ∧ l = fp ++ r := by
  match l with
  | [] =>
    simp only [parseFracPart] at h
    exact ⟨[], Or.inl rfl, by simpa using Option.some.inj h⟩
  | c :: rest =>
    simp only [parseFracPart] at h
    by_cases hc : c = '.'
    · rw [if_pos hc] at h
      subst hc
      by_cases hany : rest.head?.any isDigitCh = true
      · rw [if_pos hany] at h
        match rest, hany, h with
        | d :: t, hany, h =>
          have hd : isDigitCh d = true := by simpa using hany
          have hr := (Option.some.inj h).symm
          refine ⟨'.' :: (d :: t).takeWhile isDigitCh,
            Or.inr ⟨(d :: t).takeWhile isDigitCh, rfl, ?_, ?_⟩, ?_⟩
          · simp [List.takeWhile_cons_of_pos hd]
          · exact List.all_eq_true.mpr fun x hx => List.mem_takeWhile_imp hx
          · rw [hr]
            simp [List.takeWhile_append_dropWhile]
      · rw [if_neg hany] at h
        cases h
    · rw [if_neg hc] at h
      exact ⟨[], Or.inl rfl, by simpa using Option.some.inj h⟩

/-- Soundness of the exponent digit-run parser. -/
theorem parseExpDigits_sound {l r : List Char} (h : parseExpDigits l = some r) :
    ∃ ds, ds ≠ [] ∧ ds.all isDigitCh = true ∧ l = ds ++ r := by
  simp only [parseExpDigits] at h
  by_cases hany : l.head?.any isDigitCh = true
  · rw [if_pos hany] at h
    match l, hany, h with
    | d :: t, hany, h =>
      have hd : isDigitCh d = true := by simpa using hany
      have hr := (Option.some.inj h).symm
      refine ⟨(d :: t).takeWhile isDigitCh, ?_, ?_, ?_⟩
      · simp [List.takeWhile_cons_of_pos hd]
      · exact List.all_eq_true.mpr fun x hx => List.mem_takeWhile_imp hx
      · rw [hr]
        simp [List.takeWhile_append_dropWhile]
  · rw [if_neg hany] at h
    cases h

/-- Soundness of the exponent-part parser. -/
theorem parseExpPart_sound {l r : List Char} (h : parseExpPart l = some r) :
    ∃ ep, ExpPartOk ep ∧ l = ep ++ r := by
  match l with
  | [] =>
    simp only [parseExpPart] at h
    exact ⟨[], Or.inl rfl, by simpa using Option.some.inj h⟩
  | c :: rest =>
    simp only [parseExpPart] at h
    by_cases hc : (c = 'e' || c = 'E') = true
    · rw [if_pos hc] at h
      have hc' : c = 'e' ∨ c = 'E' := by
        simpa [Bool.or_eq_true, decide_eq_true_eq] using hc
      by_cases hs : rest.head?.any (fun s => s = '+' || s = '-') = true
      · rw [if_pos hs] at h
        match rest, hs, h with
        | s :: r2, hs, h =>
          have hs' : s = '+' ∨ s = '-' := by
            simpa [Bool.or_eq_true, decide_eq_true_eq] using hs
          obtain ⟨ds, hne, hds, hr2⟩ := parseExpDigits_sound h
          refine ⟨c :: ([s] ++ ds), Or.inr ⟨c, [s], ds, hc', ?_, hne, hds, rfl⟩, ?_⟩
          · rcases hs' with rfl | rfl
            · exact Or.inr (Or.inl rfl)
            · exact Or.inr (Or.inr rfl)
          · rw [show (s :: r2).tail = r2 from rfl] at hr2
            rw [hr2]
            simp
      · rw [if_neg hs] at h
        obtain ⟨ds, hne, hds, hrest⟩ := parseExpDigits_sound h
        refine ⟨c :: ([] ++ ds), Or.inr ⟨c, [], ds, hc', Or.inl rfl, hne, hds, rfl⟩, ?_⟩
        rw [List.nil_append]
        rw [hrest]
        simp
    · rw [if_neg hc] at h
      exact ⟨[], Or.inl rfl, by simpa using Option.some.inj h⟩

/-- Soundness of the complete number-token parser: whatever it consumes
is a well-formed JSON number. -/
theorem parseNumberToken_sound {l r : List Char} (h : parseNumberToken l = some r) :
    ∃ num, IsJsonNumber num ∧ l = num ++ r := by
  match l with
  | [] => simp [parseNumberToken, parseIntPart] at h
  | c :: rest =>
    simp only [parseNumberToken] at h
    rw [Option.bind_eq_some] at h
    obtain ⟨l2, h2, h'⟩ := h
    rw [Option.bind_eq_some] at h'
    obtain ⟨l3, h3, h4⟩ := h'
    obtain ⟨fp, hfp, rfl⟩ := parseFracPart_sound h3
    obtain ⟨ep, hep, rfl⟩ := parseExpPart_sound h4
    by_cases hc : c = '-'
    · rw [if_pos hc] at h2
      obtain ⟨ip, hip, hrest⟩ := parseIntPart_sound h2
      subst hc
      refine ⟨['-'] ++ ip ++ fp ++ ep,
        ⟨['-'], ip, fp, ep, Or.inr rfl, hip, hfp, hep, rfl⟩, ?_⟩
      rw [hrest]
      simp
    · rw [if_neg hc] at h2
      obtain ⟨ip, hip, hrest⟩ := parseIntPart_sound h2
      refine ⟨[] ++ ip ++ fp ++ ep,
        ⟨[], ip, fp, ep, Or.inl rfl, hip, hfp, hep, rfl⟩, ?_⟩
      rw [List.nil_append]
      rw [hrest]
      simp

/-- Soundness of the whole-string acceptance check: an accepted string
decomposes as whitespace, one well-formed decimal numeral, whitespace. -/
theorem serdeAccepts_sound {s : String} (h : serdeAcceptsF64 s = true) :
    AcceptsDecimalString s := by
  unfold serdeAcceptsF64 at h
  cases hp : parseNumberToken (s.data.dropWhile isJsonWs) with
  | none => rw [hp] at h; cases h
  | some rest =>
    rw [hp] at h
    obtain ⟨num, hnum, hsplit⟩ := parseNumberToken_sound hp
    have hrest : rest.dropWhile isJsonWs = [] := by
      simpa [List.isEmpty_iff] using h
    refine ⟨s.data.takeWhile isJsonWs, num, rest,
      List.all_eq_true.mpr fun x hx => List.mem_takeWhile_imp hx,
      List.all_eq_true.mpr (List.dropWhile_eq_nil_iff.mp hrest), hnum, ?_⟩
    conv_lhs => rw [← List.takeWhile_append_dropWhile (p := isJsonWs) (l := s.data)]
    rw [hsplit]
    exact (List.append_assoc _ _ _).symm

/-- Completeness of the integer-part parser: a well-formed integer part
followed by a suffix that does not start with a digit parses, consuming
exactly the integer part. -/
theorem parseIntPart_complete {ip t : List Char} (hip : IntPartOk ip)
    (ht : ∀ x, t.head? = some x → isDigitCh x = false) :
    parseIntPart (ip ++ t) = some t := by
  rcases hip with rfl | ⟨c, cs, rfl, hc, hcs⟩
  · simp [parseIntPart]
  · have hc0 : c ≠ '0' := by
      intro hh; subst hh; exact absurd hc (by decide)
    simp only [List.cons_append, parseIntPart, if_neg hc0, if_pos hc]
    rw [dropWhile_append_not_head _ cs t hcs ht]

/-- Completeness of the fraction-part parser: a well-formed (possibly
empty) fraction part followed by a suffix that starts with neither a
digit nor a decimal point parses, consuming exactly the fraction part. -/
theorem parseFracPart_complete {fp t : List Char} (hfp : FracPartOk fp)
    (htd : ∀ x, t.head? = some x → isDigitCh x = false)
    (htdot : ∀ x, t.head? = some x → x ≠ '.') :
    parseFracPart (fp ++ t) = some t := by
  rcases hfp with rfl | ⟨ds, rfl, hne, hds⟩
  · rw [List.nil_append]
    cases t with
    | nil => rfl
    | cons x xs =>
      simp [parseFracPart, htdot x rfl]
  · cases ds with
    | nil => exact absurd rfl hne
    | cons d ds' =>
      simp only [List.all_cons, Bool.and_eq_true] at hds
      have hdrop : List.dropWhile isDigitCh ((d :: ds') ++ t) = t :=
        dropWhile_append_not_head _ _ _ (by simp [hds.1, hds.2]) htd
      simp only [List.cons_append] at hdrop
      simp [parseFracPart, hds.1, hdrop]

/-- Completeness of the exponent digit-run parser. -/
theorem parseExpDigits_complete {ds t : List Char} (hne : ds ≠ [])
    (hds : ds.all isDigitCh = true)
    (htd : ∀ x, t.head? = some x → isDigitCh x = false) :
    parseExpDigits (ds ++ t) = some t := by
  cases ds with
  | nil => exact absurd rfl hne
  | cons d ds' =>
    simp only [List.all_cons, Bool.and_eq_true] at hds
    have hdrop : List.dropWhile isDigitCh ((d :: ds') ++ t) = t :=
      dropWhile_append_not_head _ _ _ (by simp [hds.1, hds.2]) htd
    simp only [List.cons_append] at hdrop
    simp [parseExpDigits, hds.1, hdrop]

/-- Completeness of the exponent-part parser: a well-formed (possibly
empty) exponent part followed by a suffix that starts with neither a
digit nor an exponent marker parses, consuming exactly the exponent
part. -/
theorem parseExpPart_complete {ep t : List Char} (hep : ExpPartOk ep)
    (htd : ∀ x, t.head? = some x → isDigitCh x = false)
    (hte : ∀ x, t.head? = some x → x ≠ 'e' ∧ x ≠ 'E') :
    parseExpPart (ep ++ t) = some t := by
  rcases hep with rfl | ⟨e, sg, ds, he, hsg, hne, hds, rfl⟩
  · rw [List.nil_append]
    cases t with
    | nil => rfl
    | cons x xs =>
      have hx := hte x rfl
      simp [parseExpPart, hx.1, hx.2]
  · have hee : (e = 'e' || e = 'E') = true := by
      rcases he with rfl | rfl <;> simp
    cases ds with
    | nil => exact absurd rfl hne
    | cons d ds' =>
      simp only [List.all_cons, Bool.and_eq_true] at hds
      have hdigits : parseExpDigits ((d :: ds') ++ t) = some t :=
        parseExpDigits_complete (by simp) (by simp [hds.1, hds.2]) htd
      simp only [List.cons_append] at hdigits
      rcases hsg with rfl | rfl | rfl
      · simp [parseExpPart, hee, digit_not_sign hds.1, hdigits]
      · simp [parseExpPart, hee, hdigits]
      · simp [parseExpPart, hee, hdigits]

/-- Completeness of the complete number-token parser: a well-formed JSON
number followed by a suffix that starts with no digit, decimal point, or
exponent marker parses, consuming exactly the number. -/
theorem parseNumberToken_complete {num t : List Char} (hnum : IsJsonNumber num)
    (htd : ∀ x, t.head? = some x → isDigitCh x = false)
    (htdot : ∀ x, t.head? = some x → x ≠ '.')
    (hte : ∀ x, t.head? = some x → x ≠ 'e' ∧ x ≠ 'E') :
    parseNumberToken (num ++ t) = some t := by
  obtain ⟨sgn, ip, fp, ep, hsgn, hip, hfp, hep, rfl⟩ := hnum
  have hepcases : ep = [] ∨ ∃ e r2, ep = e :: r2 ∧ (e = 'e' ∨ e = 'E') := by
    rcases hep with rfl | ⟨e, sg, ds, he, _, _, _, rfl⟩
    · exact Or.inl rfl
    · exact Or.inr ⟨e, sg ++ ds, rfl, he⟩
  have htd2 : ∀ x, (ep ++ t).head? = some x → isDigitCh x = false := by
    rcases hepcases with rfl | ⟨e, r2, rfl, he⟩
    · simpa using htd
    · intro x hx
      simp only [List.cons_append, List.head?_cons, Option.some.injEq] at hx
      subst hx
      rcases he with rfl | rfl <;> decide
  have htdot2 : ∀ x, (ep ++ t).head? = some x → x ≠ '.' := by
    rcases hepcases with rfl | ⟨e, r2, rfl, he⟩
    · simpa using htdot
    · intro x hx
      simp only [List.cons_append, List.head?_cons, Option.some.injEq] at hx
      subst hx
      rcases he with rfl | rfl <;> decide
  have hfpcases : fp = [] ∨ ∃ r2, fp = '.' :: r2 := by
    rcases hfp with rfl | ⟨ds, rfl, _, _⟩
    · exact Or.inl rfl
    · exact Or.inr ⟨ds, rfl⟩
  have htd1 : ∀ x, (fp ++ (ep ++ t)).head? = some x → isDigitCh x = false := by
    rcases hfpcases with rfl | ⟨r2, rfl⟩
    · simpa using htd2
    · intro x hx
      simp only [List.cons_append, List.head?_cons, Option.some.injEq] at hx
      subst hx
      decide
  have hInt : parseIntPart (ip ++ (fp ++ (ep ++ t))) = some (fp ++ (ep ++ t)) :=
    parseIntPart_complete hip htd1
  have hFrac : parseFracPart (fp ++ (ep ++ t)) = some (ep ++ t) :=
    parseFracPart_complete hfp htd2 htdot2
  have hExp : parseExpPart (ep ++ t) = some t :=
    parseExpPart_complete hep htd hte
  have hstep : ∀ (x : Char) (xs : List Char), x ≠ '-' →
      parseNumberToken (x :: xs) =
        (parseIntPart (x :: xs)).bind fun l2 =>
          (parseFracPart l2).bind parseExpPart := by
    intro x xs hx
    simp [parseNumberToken, hx]
  have hstepdash : ∀ xs : List Char,
      parseNumberToken ('-' :: xs) =
        (parseIntPart xs).bind fun l2 =>
          (parseFracPart l2).bind parseExpPart := by
    intro xs
    simp [parseNumberToken]
  rcases hsgn with rfl | rfl
  · rcases hip with rfl | ⟨c, cs, rfl, hc, hcs⟩
    · simp only [List.nil_append, List.singleton_append, List.cons_append,
        List.append_assoc] at hInt ⊢
      rw [hstep '0' _ (by decide), hInt]
      simp [hFrac, hExp]
    · have hcne : c ≠ '-' := digit_ne_dash (nonzero_isDigitCh hc)
      simp only [List.nil_append, List.cons_append, List.append_assoc] at hInt ⊢
      rw [hstep c _ hcne, hInt]
      simp [hFrac, hExp]
  · simp only [List.nil_append, List.singleton_append, List.cons_append,
      List.append_assoc]
    rw [hstepdash, hInt]
    simp [hFrac, hExp]

/-- The acceptance check of the decimal decode path agrees exactly with
the declarative grammar: a string is accepted if and only if it is
whitespace around one complete, well-formed decimal numeral. -/
theorem acceptsDecimal_iff (s : String) :
    AcceptsDecimalString s ↔ serdeAcceptsF64 s = true := by
  constructor
  · rintro ⟨ws1, num, ws2, h1, h2, hnum, hdata⟩
    have hwsfact : ∀ x, x ∈ ws2 → isJsonWs x = true := List.all_eq_true.mp h2
    have htd : ∀ x, ws2.head? = some x → isDigitCh x = false := fun x hx =>
      ws_not_digit (hwsfact x (headQ_mem hx))
    have htdot : ∀ x, ws2.head? = some x → x ≠ '.' := fun x hx =>
      ws_ne_dot (hwsfact x (headQ_mem hx))
    have hte : ∀ x, ws2.head? = some x → x ≠ 'e' ∧ x ≠ 'E' := fun x hx =>
      ws_ne_exp (hwsfact x (headQ_mem hx))
    have hnumhead : ∀ x, (num ++ ws2).head? = some x → isJsonWs x = false := by
      obtain ⟨sgn, ip, fp, ep, hsgn, hip, hsplit⟩ :
          ∃ sgn ip fp ep, SignPartOk sgn ∧ IntPartOk ip ∧
            num = sgn ++ ip ++ fp ++ ep := by
        obtain ⟨sgn, ip, fp, ep, hsgn, hip, _, _, rfl⟩ := hnum
        exact ⟨sgn, ip, fp, ep, hsgn, hip, rfl⟩
      subst hsplit
      rcases hsgn with rfl | rfl
      · rcases hip with rfl | ⟨c, cs, rfl, hc, _⟩
        · intro x hx
          simp only [List.nil_append, List.singleton_append, List.cons_append,
            List.append_assoc, List.head?_cons, Option.some.injEq] at hx
          subst hx
          decide
        · intro x hx
          simp only [List.nil_append, List.cons_append, List.append_assoc,
            List.head?_cons, Option.some.injEq] at hx
          subst hx
          exact digit_not_ws (nonzero_isDigitCh hc)
      · intro x hx
        simp only [List.singleton_append, List.cons_append, List.append_assoc,
          List.head?_cons, Option.some.injEq] at hx
        subst hx
        decide
    have hdrop : s.data.dropWhile isJsonWs = num ++ ws2 := by
      rw [hdata, List.append_assoc]
      exact dropWhile_append_not_head _ ws1 (num ++ ws2) h1 hnumhead
    have hparse : parseNumberToken (num ++ ws2) = some ws2 :=
      parseNumberToken_complete hnum htd htdot hte
    unfold serdeAcceptsF64
    rw [hdrop, hparse]
    simp [List.dropWhile_eq_nil_iff.mpr fun x hx => hwsfact x hx]
  · exact serdeAccepts_sound

/-- C8. For every string that is not a complete, well-formed decimal
numeral (whitespace-trimmed `-? (0|[1-9][0-9]*) (.[0-9]+)? ([eE][+-]?[0-9]+)?`,
for example `"12.3.4"`), decoding it as a Decimal fails: the serde
`TryFrom<String>` path fails with its parse error (no partial parse is
accepted, since the grammar covers the whole string), and the Value-layer
decode fails with `ReadError::InvalidType`. -/
theorem claim8_malformed_decimal_rejected (conv : String → F64) (s : String)
    (h : ¬ AcceptsDecimalString s) :
    decimalTryFromString conv s =
      .error "Error parsing decimal: invalid float literal" ∧
    decodeDecimalWasm conv (.str s) = .error .invalidType := by
  have hb : serdeAcceptsF64 s = false := by
    cases hsb : serdeAcceptsF64 s
    · rfl
    · exact absurd ((acceptsDecimal_iff s).mpr hsb) h
  constructor
  · simp [decimalTryFromString, serdeJsonFromStrF64, hb]
  · simp [decodeDecimalWasm, serdeJsonFromStrF64, hb]

/-- C8 witness: the partial parse `"12.3.4"` is rejected by both decode
paths. -/
theorem claim8_malformed_decimal_rejected_witness :
    decimalTryFromString (fun _ => F64.finite 0) "12.3.4" =
      .error "Error parsing decimal: invalid float literal" ∧
    decodeDecimalWasm (fun _ => F64.finite 0) (.str "12.3.4") =
      .error .invalidType :=
  claim8_malformed_decimal_rejected (fun _ => F64.finite 0) "12.3.4"
    (fun hacc => absurd ((acceptsDecimal_iff "12.3.4").mp hacc) (by decide))
